import Mathlib

/-!
Verification development for the AllCryptoTokens prebuilt-database builder.

The repository is a set of Python scripts that seed, enrich and patch a
sqlite table `tokens(cgId, symbol, name, description, imageUrl, updatedAt)`.
This file gives a shallow embedding of the store (a list of rows), of the
row-level SQL statements the scripts execute, and of the control flow of the
patch / seed / enrich / schema-rebuild / retry routines, and proves or
refutes the frozen specification claims about them.

Modelling conventions:
- the `tokens` table is a `List Row` in physical row order; SQL `UPDATE`
  statements become `List.map` of a row transformer, `INSERT` appends;
- SQL `NULL` for a text column is `Option.none`; the empty string is
  `some ""`; the Python truthiness test used by the scripts
  (`if not s: ...`) and the SQL test `s IS NULL OR s = ''` coincide on
  this representation and are both `optEmpty`;
- timestamps are `Int` (Python `int(time.time())`);
- the network is a parameter: enrich passes receive the list of fetched
  responses, the retry loop receives the outcome of each attempt.
-/

namespace TokenDb

/-- Row of the `tokens` table under the strict (Room-compatible) schema of
`safe_patch_prebuilt_db.py`: `cgId`, `symbol`, `name`, `updatedAt` are NOT
NULL, `description` and `imageUrl` are nullable. -/
@[ext]
structure Row where
  cgId : String
  symbol : String
  name : String
  description : Option String
  imageUrl : Option String
  updatedAt : Int
deriving Repr, DecidableEq

/-- Test shared by Python truthiness on an optional string
(`if not s`) and by the SQL predicate `s IS NULL OR s = ''`. -/
def optEmpty (o : Option String) : Bool :=
  match o with
  | none => true
  | some s => s = ""

/-- Python `s if s else None`: maps an absent or empty string to `None`.
Used for the bind parameters `desc if desc else None` of the patch UPDATE. -/
def emptyToNone (o : Option String) : Option String :=
  match o with
  | none => none
  | some s => if s = "" then none else some s

/-- Python `a or dflt` on an optional string against a string default:
falsy values (`None`, `""`) fall through to the default. -/
def pyOrStr (o : Option String) (dflt : String) : String :=
  match o with
  | none => dflt
  | some s => if s = "" then dflt else s

/-- Python `a or b` where both sides are optional strings. -/
def pyOrOpt (a b : Option String) : Option String :=
  match a with
  | none => b
  | some s => if s = "" then b else some s

/-- One normalized entry of a patch batch in `safe_patch_prebuilt_db.py`:
the JSON keys `cgId`, `id`, `description`, `imageUrl`, each possibly absent.
The three accepted JSON shapes (items list, map, bare list) are all
normalized by the script to a list of such entries before processing. -/
structure PatchItem where
  cgId : Option String
  altId : Option String
  description : Option String
  imageUrl : Option String
deriving Repr, DecidableEq

/-- Python `str.strip()` (whitespace strip on both ends), embedded
structurally over the character list so that it evaluates inside the
kernel. -/
def pyStrip (s : String) : String :=
  String.mk (((s.data.dropWhile Char.isWhitespace).reverse.dropWhile
    Char.isWhitespace).reverse)

/-- Identifier resolution of `apply_patches`:
`(it.get("cgId") or it.get("id") or "").strip()`. -/
def resolveId (it : PatchItem) : String :=
  pyStrip (pyOrStr it.cgId (pyOrStr it.altId ""))

/-- SQL `SELECT 1 FROM tokens WHERE cgId=? LIMIT 1` as a boolean test. -/
def hasId (store : List Row) (c : String) : Bool :=
  store.any (fun r => r.cgId = c)

/-- Row transformer of the patch UPDATE in `apply_patches`:
`UPDATE tokens SET description = COALESCE(?, description),
imageUrl = COALESCE(?, imageUrl), updatedAt = ? WHERE cgId = ?`,
where `d` and `img` are the already-`emptyToNone`-ed bind parameters. -/
def patchRow (ts : Int) (c : String) (d img : Option String) (r : Row) : Row :=
  if r.cgId = c then
    { r with
      description := match d with | some v => some v | none => r.description
      imageUrl := match img with | some v => some v | none => r.imageUrl
      updatedAt := ts }
  else r

/-- Loop body of `apply_patches` (safe_patch_prebuilt_db.py, lines 171-205),
threading the store and the `updated` / `missing` / `skipped` counters. -/
def applyPatchesGo (ts : Int) (dryRun : Bool) (store : List Row)
    (items : List PatchItem) (u m s : Nat) : List Row × Nat × Nat × Nat :=
  match items with
  | [] => (store, u, m, s)
  | it :: rest =>
    let c := resolveId it
    if c = "" then
      applyPatchesGo ts dryRun store rest u m (s + 1)
    else if !(hasId store c) then
      applyPatchesGo ts dryRun store rest u (m + 1) s
    else if optEmpty it.description && optEmpty it.imageUrl then
      applyPatchesGo ts dryRun store rest u m (s + 1)
    else if dryRun then
      applyPatchesGo ts dryRun store rest (u + 1) m s
    else
      applyPatchesGo ts dryRun
        (store.map (patchRow ts c (emptyToNone it.description) (emptyToNone it.imageUrl)))
        rest (u + 1) m s

/-- Model of `apply_patches(conn, patch, dry_run)`: returns the final store
and the `(updated, missing, skipped)` counters. -/
def apply_patches (store : List Row) (items : List PatchItem) (ts : Int)
    (dryRun : Bool) : List Row × Nat × Nat × Nat :=
  applyPatchesGo ts dryRun store items 0 0 0

/-- Post-patch `user_version` handling of `safe_patch_prebuilt_db.main`
(lines 248-257): in a non-dry run, `--set-user-version` wins, otherwise
`--bump-user-version` increments by one.  The code never consults the
update counter, which is passed here only to document that fact. -/
def safePatchFinalUserVersion (dryRun : Bool) (setVersion : Option Int)
    (bump : Bool) (uv : Int) (totalUpdated : Nat) : Int :=
  if dryRun then uv
  else
    match setVersion with
    | some v => v
    | none => if bump then uv + 1 else uv

/-- The `user_version` handling of `scripts/patch_descriptions.main`
(lines 127-134): bump by one iff the flag is set and at least one row
was updated. -/
def patchDescFinalUserVersion (bump : Bool) (updated : Nat) (uv : Int) : Int :=
  if bump ∧ 0 < updated then uv + 1 else uv

/-- Fresh row inserted by the seed upsert for an unseen `cgId`: the three
correlated subqueries find no row, so description and imageUrl are NULL and
updatedAt is 0. -/
def newSeedRow (t : String × String × String) : Row :=
  { cgId := t.1, symbol := t.2.1, name := t.2.2
    description := none, imageUrl := none, updatedAt := 0 }

/-- Conflict branch of the seed upsert:
`ON CONFLICT(cgId) DO UPDATE SET symbol = excluded.symbol,
name = excluded.name`. -/
def updSeed (t : String × String × String) (r : Row) : Row :=
  if r.cgId = t.1 then { r with symbol := t.2.1, name := t.2.2 } else r

/-- One seed upsert of `seed_rows_from_crypto_com` (identical SQL in
`build_prebuilt_db.py` and `token_db_builder/build_prebuilt_tokens.py`):
insert a fresh minimal row, or on cgId conflict update only symbol and
name, preserving description, imageUrl and updatedAt. -/
def seedUpsert (store : List Row) (t : String × String × String) : List Row :=
  if hasId store t.1 then store.map (updSeed t)
  else store ++ [newSeedRow t]

/-- The seed phase: fold of the upsert over the mapped
`(cgId, symbol, name)` rows, in upstream order. -/
def seed_rows_from_crypto_com (store : List Row)
    (rows : List (String × String × String)) : List Row :=
  rows.foldl seedUpsert store

/-- Model of `list_ids_needing_enrich` (build_prebuilt_tokens.py lines
275-289; the build_prebuilt_db.py variant is the `skipImages = false`
case): ids of rows whose description (and, unless images are skipped,
imageUrl) is NULL or empty. -/
def list_ids_needing_enrich (skipImages : Bool) (store : List Row) : List String :=
  if skipImages then
    (store.filter (fun r => optEmpty r.description)).map (fun r => r.cgId)
  else
    (store.filter (fun r => optEmpty r.description || optEmpty r.imageUrl)).map
      (fun r => r.cgId)

/-- Relevant fields of a fetched CoinGecko coin detail response:
`description.en` and the `image` object (build_prebuilt_tokens.py). An
absent `description` or `image` object is the all-`none` record. -/
structure CoinData where
  descriptionEn : Option String
  imageLarge : Option String
  imageSmall : Option String
  imageThumb : Option String
deriving Repr, DecidableEq

/-- Model of `_pick_image`: `img.get("large") or img.get("small") or
img.get("thumb")` (an empty dict yields `none` through the fallthrough). -/
def pickImage (d : CoinData) : Option String :=
  pyOrOpt d.imageLarge (pyOrOpt d.imageSmall d.imageThumb)

/-- Suffix of a character list just after its first `>`, or `none` when no
`>` remains; helper for the tag-stripping regex. -/
def findGtSplit : List Char → Option (List Char)
  | [] => none
  | c :: cs => if c = '>' then some cs else findGtSplit cs

/-- Model of `re.sub(r"<[^>]*>", "", s)` in `strip_html`: drop every
maximal segment from a `<` through the first following `>`; a trailing
`<` with no closing `>` matches nothing and is kept verbatim. -/
def stripTagsGo (l : List Char) : List Char :=
  match l with
  | [] => []
  | c :: cs =>
    if c = '<' then
      match h : findGtSplit cs with
      | some rest => stripTagsGo rest
      | none => c :: cs
    else c :: stripTagsGo cs
termination_by l.length
decreasing_by
  · have aux : ∀ (xs out : List Char), findGtSplit xs = some out →
        out.length < xs.length := by
      intro xs
      induction xs with
      | nil => intro out hh; simp [findGtSplit] at hh
      | cons x xs ih =>
        intro out hh
        by_cases hx : x = '>'
        · simp [findGtSplit, hx] at hh
          simp [← hh, List.length_cons, Nat.lt_succ_self]
        · simp [findGtSplit, hx] at hh
          exact Nat.lt_trans (ih out hh) (Nat.lt_succ_self _)
    exact Nat.lt_trans (aux cs rest h) (Nat.lt_succ_self _)
  · exact Nat.lt_succ_self _

/-- Tag stripping on strings. -/
def stripTags (s : String) : String :=
  String.mk (stripTagsGo s.data)

/-- Description computed by `enrich_details` for one fetched coin:
`desc_raw = (data.get("description") or {}).get("en") or None` and
`desc = strip_html(desc_raw) if desc_raw else None`, where `strip_html`
strips tags, applies `html.unescape` and trims.  The Python stdlib entity
decoder `html.unescape` is outside the repository and is passed in as the
`unescape` parameter. -/
def computedDesc (unescape : String → String) (d : CoinData) : Option String :=
  (emptyToNone d.descriptionEn).map (fun t => (unescape (stripTags t)).trim)

/-- One iteration of the enrich loop of
`token_db_builder/build_prebuilt_tokens.py::enrich_details` (lines
297-332) for id `fetch.1`: a raised request error (`fetch.2 = none`)
leaves the store untouched; otherwise
`UPDATE tokens SET description=?, imageUrl=?, updatedAt=? WHERE cgId=?`
writes the computed description and image unconditionally. -/
def enrichStep (unescape : String → String) (skipImages : Bool) (now : Int)
    (store : List Row) (fetch : String × Option CoinData) : List Row :=
  match fetch.2 with
  | none => store
  | some data =>
    let desc := computedDesc unescape data
    let img := if skipImages then none else pickImage data
    store.map (fun r =>
      if r.cgId = fetch.1 then
        { r with description := desc, imageUrl := img, updatedAt := now }
      else r)

/-- Model of `enrich_details(db, ids, skip_images)`: fold of the per-id
update over the sequence of ids with their fetched responses. -/
def enrich_details (unescape : String → String) (skipImages : Bool) (now : Int)
    (store : List Row) (fetches : List (String × Option CoinData)) : List Row :=
  fetches.foldl (enrichStep unescape skipImages now) store

/-! Schema model for `safe_patch_prebuilt_db.py`: the physical layout of
the `tokens` table as reported by `PRAGMA table_info`, and the
rebuild-in-place migration. -/

/-- One `PRAGMA table_info` row: column name, NOT NULL flag, primary-key
index (0 when not part of the primary key). -/
structure ColInfo where
  name : String
  notnull : Bool
  pk : Nat
deriving Repr, DecidableEq

/-- Physical row of a possibly pre-migration `tokens` table: every column
may hold NULL (sqlite allows NULL even in a TEXT PRIMARY KEY column). -/
structure RawRow where
  cgId : Option String
  symbol : Option String
  name : Option String
  description : Option String
  imageUrl : Option String
  updatedAt : Option Int
deriving Repr, DecidableEq

/-- Store file state: whether the `tokens` table exists, its column
layout, and its rows. -/
structure DbFile where
  hasTokens : Bool
  cols : List ColInfo
  rows : List RawRow
deriving Repr, DecidableEq

/-- The required-NOT-NULL column set of safe_patch_prebuilt_db.py. -/
def REQUIRED_NOT_NULL : List String := ["cgId", "symbol", "name", "updatedAt"]

/-- All expected columns of the `tokens` table. -/
def ALL_COLUMNS : List String :=
  ["cgId", "symbol", "name", "description", "imageUrl", "updatedAt"]

/-- Column lookup by name in a `PRAGMA table_info` result. -/
def findCol (cols : List ColInfo) (n : String) : Option ColInfo :=
  cols.find? (fun c => c.name = n)

/-- Model of `schema_is_room_compatible` (lines 53-79): table present, all
six columns present, `cgId` is the primary key, and the required columns
are NOT NULL.  The diagnostic string of the source is not modelled. -/
def schema_is_room_compatible (db : DbFile) : Bool :=
  if !db.hasTokens then false
  else if ALL_COLUMNS.any (fun c => (findCol db.cols c).isNone) then false
  else
    let badNN := REQUIRED_NOT_NULL.filter (fun c =>
      match findCol db.cols c with
      | some ci => !ci.notnull
      | none => true)
    let pkOk := match findCol db.cols "cgId" with
      | some ci => ci.pk = 1
      | none => false
    if !pkOk then false
    else if !badNN.isEmpty then false
    else true

/-- Column layout created by `CREATE_TOKENS_SQL` (and by the shadow table
of the rebuild): required columns NOT NULL, `cgId` primary key,
`description` and `imageUrl` nullable. -/
def roomCols : List ColInfo :=
  [⟨"cgId", true, 1⟩, ⟨"symbol", true, 0⟩, ⟨"name", true, 0⟩,
   ⟨"description", false, 0⟩, ⟨"imageUrl", false, 0⟩, ⟨"updatedAt", true, 0⟩]

/-- Per-row copy of the rebuild SELECT:
`COALESCE(cgId,''), COALESCE(symbol,''), COALESCE(name,''),
description, imageUrl, COALESCE(updatedAt, 0)` — description and imageUrl
are copied verbatim, NULLs included. -/
def rebuildRow (r : RawRow) : RawRow :=
  { cgId := some (r.cgId.getD ""), symbol := some (r.symbol.getD ""),
    name := some (r.name.getD ""), description := r.description,
    imageUrl := r.imageUrl, updatedAt := some (r.updatedAt.getD 0) }

/-- `INSERT OR REPLACE` into the shadow table keyed on `cgId`: a row with
a conflicting key replaces the existing one (every inserted row carries a
non-NULL `cgId`, so the sqlite NULL-key subtlety does not arise). -/
def insertOrReplace (acc : List RawRow) (r : RawRow) : List RawRow :=
  if acc.any (fun x => x.cgId = r.cgId) then
    (acc.filter (fun x => !(x.cgId = r.cgId))) ++ [r]
  else acc ++ [r]

/-- Model of `rebuild_tokens_table_room_schema` (lines 81-121): create the
strict shadow table, copy all rows with the COALESCE defaults via
`INSERT OR REPLACE`, then rename the shadow into place. -/
def rebuild_tokens_table_room_schema (db : DbFile) : DbFile :=
  { db with
    cols := roomCols
    rows := (db.rows.map rebuildRow).foldl insertOrReplace [] }

/-- Model of `ensure_schema` (lines 123-135): create the table when
missing, keep a compatible layout untouched, rebuild otherwise. -/
def ensure_schema (db : DbFile) : DbFile :=
  if !db.hasTokens then { hasTokens := true, cols := roomCols, rows := [] }
  else if schema_is_room_compatible db then db
  else rebuild_tokens_table_room_schema db

/-! Retry and backoff model for `request_json`.  The wait-time arithmetic
is embedded over the rationals; the loop control flow is embedded over an
arbitrary sequence of per-attempt outcomes. -/

/-- Backoff base (both script variants). -/
def BASE_BACKOFF_SEC : ℚ := 2

/-- Backoff cap of `token_db_builder/build_prebuilt_tokens.py`. -/
def MAX_BACKOFF_SEC_tokens : ℚ := 60

/-- Backoff cap of `build_prebuilt_db.py`. -/
def MAX_BACKOFF_SEC_db : ℚ := 90

/-- Deterministic part of the computed backoff after failed attempt
`attempt`: `min(MAX_BACKOFF_SEC, BASE_BACKOFF_SEC * 2 ** (attempt - 1))`. -/
def backoffDet (maxBackoff : ℚ) (attempt : Nat) : ℚ :=
  min maxBackoff (BASE_BACKOFF_SEC * 2 ^ (attempt - 1))

/-- Wait computed on a 429/5xx response after failed attempt `attempt`:
a parseable `Retry-After` header is honored exactly, otherwise the capped
exponential backoff plus the jitter drawn from `random.random() * 0.4`. -/
def waitOn429 (maxBackoff : ℚ) (retryAfter : Option ℚ) (attempt : Nat)
    (jitter : ℚ) : ℚ :=
  match retryAfter with
  | some w => w
  | none => backoffDet maxBackoff attempt + jitter

/-- Retry ceiling (both script variants). -/
def MAX_RETRIES : Nat := 6

/-- Outcome of one HTTP attempt: a response with a status code and body,
or a `requests.Timeout` / `requests.ConnectionError`. -/
inductive HttpOutcome where
  | response (status : Nat) (body : String)
  | netError
deriving Repr, DecidableEq

/-- Status codes the loop retries: `status == 429 or 500 <= status < 600`. -/
def isRetryableStatus (status : Nat) : Bool :=
  status = 429 || (500 ≤ status && status < 600)

/-- Outcomes the loop retries (the transient class): retryable statuses
and connection-level failures. -/
def isTransient : HttpOutcome → Bool
  | .response status _ => isRetryableStatus status
  | .netError => true

/-- Result surfaced by `request_json` to its caller. -/
inductive FetchResult where
  | ok (body : String)
  | httpError (status : Nat)
  | netFailure
deriving Repr, DecidableEq

/-- Whether a result is a raised exception rather than a JSON body. -/
def isErrorResult : FetchResult → Bool
  | .ok _ => false
  | .httpError _ => true
  | .netFailure => true

/-- Statuses on which `resp.raise_for_status()` raises. -/
def raiseForStatusFails (status : Nat) : Bool :=
  400 ≤ status && status < 600

/-- Control flow of the `request_json` retry loop (identical in both
script variants), starting at attempt number `attempt`: retryable
responses and network errors are retried while `attempt <= MAX_RETRIES`,
then the underlying error is raised; other responses either raise
immediately (4xx) or return the body.  Returns the result together with
the number of the attempt on which the loop exited. -/
def requestJsonGo (outcomes : Nat → HttpOutcome) (attempt : Nat) :
    FetchResult × Nat :=
  match outcomes attempt with
  | .netError =>
    if h : attempt ≤ MAX_RETRIES then requestJsonGo outcomes (attempt + 1)
    else (.netFailure, attempt)
  | .response status body =>
    if isRetryableStatus status then
      if h : attempt ≤ MAX_RETRIES then requestJsonGo outcomes (attempt + 1)
      else (.httpError status, attempt)
    else if raiseForStatusFails status then (.httpError status, attempt)
    else (.ok body, attempt)
termination_by MAX_RETRIES + 1 - attempt
decreasing_by
  · omega
  · omega

/-- Model of `request_json`: run the retry loop from attempt 1. -/
def request_json (outcomes : Nat → HttpOutcome) : FetchResult × Nat :=
  requestJsonGo outcomes 1

/-! Derived predicates and auxiliary functions used to state and prove the
claims, plus concrete stores and batches used by counterexamples and
witnesses. -/

/-- Patch entries counted as `missing` by `apply_patches`: a non-empty
resolved identifier that is absent from the store. -/
def pMissing (store : List Row) (it : PatchItem) : Bool :=
  !(resolveId it = "") && !(hasId store (resolveId it))

/-- Patch entries counted as `skipped` by `apply_patches`: no resolved
identifier, or a present identifier with both provided fields empty. -/
def pSkipped (store : List Row) (it : PatchItem) : Bool :=
  (resolveId it = "") ||
    (hasId store (resolveId it) && optEmpty it.description && optEmpty it.imageUrl)

/-- Patch entries counted as `updated` by `apply_patches`: a present
identifier with at least one non-empty provided field. -/
def pUpdated (store : List Row) (it : PatchItem) : Bool :=
  !(resolveId it = "") && hasId store (resolveId it) &&
    !(optEmpty it.description && optEmpty it.imageUrl)

/-- Effect of one patch entry on one row, relative to the id set `ids` of
the store: the row transformer actually applied by the `apply_patches`
loop for that entry (identity on skipped and missing entries). -/
def itemStep (ts : Int) (ids : List String) (r : Row) (it : PatchItem) : Row :=
  let c := resolveId it
  if c = "" then r
  else if !(ids.any (fun x => x = c)) then r
  else if optEmpty it.description && optEmpty it.imageUrl then r
  else patchRow ts c (emptyToNone it.description) (emptyToNone it.imageUrl) r

/-- Accumulated per-row effect of a whole patch batch. -/
def itemsFun (ts : Int) (ids : List String) (items : List PatchItem) (r : Row) : Row :=
  items.foldl (itemStep ts ids) r

/-- Accumulated symbol/name effect of a seed batch on one existing row. -/
def updOnly (rows : List (String × String × String)) (r : Row) : Row :=
  rows.foldl (fun r t => updSeed t r) r

/-- Last seed entry of a batch carrying a given identifier. -/
def lastMatch (rows : List (String × String × String)) (c : String) :
    Option (String × String × String) :=
  rows.reverse.find? (fun t => t.1 = c)

/-- Seven-row store used by the patch-count example of the specification. -/
def store7 : List Row :=
  [⟨"t1", "S1", "N1", none, none, 0⟩,
   ⟨"t2", "S2", "N2", none, some "i2", 0⟩,
   ⟨"t3", "S3", "N3", some "d3", none, 0⟩,
   ⟨"t4", "S4", "N4", none, none, 0⟩,
   ⟨"t5", "S5", "N5", none, none, 0⟩,
   ⟨"t6", "S6", "N6", some "d6", some "i6", 0⟩,
   ⟨"t7", "S7", "N7", none, none, 0⟩]

/-- Ten-entry patch batch against `store7`: five valid fills, three
identifiers absent from the store, two entries with both fields empty. -/
def batch10 : List PatchItem :=
  [⟨some "t1", none, some "d1", none⟩,
   ⟨some "t2", none, some "d2", some "i2b"⟩,
   ⟨none, some "t3", none, some "i3"⟩,
   ⟨some "t4", none, some "d4", none⟩,
   ⟨some "t5", none, some "d5", none⟩,
   ⟨some "m1", none, some "dm1", none⟩,
   ⟨some "m2", none, none, some "im2"⟩,
   ⟨some "m3", none, some "dm3", none⟩,
   ⟨some "t6", none, none, none⟩,
   ⟨some "t7", none, some "", some ""⟩]

/-- One-row store with a non-empty description and a missing image; such a
row is selected for enrichment by `list_ids_needing_enrich`. -/
def rowKeep : Row :=
  ⟨"bitcoin", "btc", "Bitcoin", some "An existing description.", none, 5⟩

/-- Fetched detail for `rowKeep`: the upstream answer carries an image but
no English description. -/
def fetchNoDesc : String × Option CoinData :=
  ("bitcoin", some ⟨none, some "https://img.example/btc.png", none, none⟩)

/-- Store and single-entry batch for the no-op-write counterexample: the
patched description equals the stored one. -/
def storeNoop : List Row := [⟨"a", "A", "Alpha", some "x", some "y", 5⟩]

/-- Patch entry resupplying the description `storeNoop` already has. -/
def itemsNoop : List PatchItem := [⟨some "a", none, some "x", none⟩]

/-- Store and batch for the fill-only witness: the single entry carries an
image but no description for an existing row. -/
def storeFill : List Row := [⟨"a", "A", "Alpha", some "keep", none, 3⟩]

/-- Patch entry with an empty description and a non-empty image. -/
def itemsFill : List PatchItem := [⟨some "a", none, none, some "https://i"⟩]

/-- Pre-migration layout: every column nullable, `cgId` still the primary
key (as sqlite reports for the loose `TOKENS_SQL` schema). -/
def looseCols : List ColInfo :=
  [⟨"cgId", false, 1⟩, ⟨"symbol", false, 0⟩, ⟨"name", false, 0⟩,
   ⟨"description", false, 0⟩, ⟨"imageUrl", false, 0⟩, ⟨"updatedAt", false, 0⟩]

/-- Loose-schema store with two rows; the second row has NULLs in required
columns and a NULL description. -/
def dbLoose : DbFile :=
  ⟨true, looseCols,
   [⟨some "a", some "A", some "Alpha", some "d1", none, some 3⟩,
    ⟨some "b", none, some "Beta", none, none, none⟩]⟩

/-- Two-row store with one complete and one incomplete record. -/
def storeResume : List Row :=
  [⟨"a", "A", "Alpha", some "d", some "i", 1⟩,
   ⟨"b", "B", "Beta", none, some "i", 1⟩]

/-! General lemmas about the patch loop. -/

theorem patchRow_cgId (ts : Int) (c : String) (d img : Option String) (r : Row) :
    (patchRow ts c d img r).cgId = r.cgId := by
  unfold patchRow
  split <;> rfl

theorem hasId_map_patchRow (store : List Row) (ts : Int) (c : String)
    (d img : Option String) (x : String) :
    hasId (store.map (patchRow ts c d img)) x = hasId store x := by
  simp [hasId, List.any_map, Function.comp_def, patchRow_cgId]

theorem countP_congr_on {A : Type} (p q : A → Bool) :
    ∀ (l : List A), (∀ a ∈ l, p a = q a) → l.countP p = l.countP q := by
  intro l
  induction l with
  | nil => intro _; rfl
  | cons a l ih =>
    intro h
    simp [List.countP_cons, h a (by simp), ih (fun b hb => h b (by simp [hb]))]

theorem countP_pUpdated_map (rest : List PatchItem) (store : List Row) (ts : Int)
    (c : String) (d img : Option String) :
    rest.countP (pUpdated (store.map (patchRow ts c d img))) =
      rest.countP (pUpdated store) :=
  countP_congr_on _ _ rest (fun it _ => by simp [pUpdated, hasId_map_patchRow])

theorem countP_pMissing_map (rest : List PatchItem) (store : List Row) (ts : Int)
    (c : String) (d img : Option String) :
    rest.countP (pMissing (store.map (patchRow ts c d img))) =
      rest.countP (pMissing store) :=
  countP_congr_on _ _ rest (fun it _ => by simp [pMissing, hasId_map_patchRow])

theorem countP_pSkipped_map (rest : List PatchItem) (store : List Row) (ts : Int)
    (c : String) (d img : Option String) :
    rest.countP (pSkipped (store.map (patchRow ts c d img))) =
      rest.countP (pSkipped store) :=
  countP_congr_on _ _ rest (fun it _ => by simp [pSkipped, hasId_map_patchRow])

theorem applyPatchesGo_counts (ts : Int) (dry : Bool) :
    ∀ (items : List PatchItem) (store : List Row) (u m s : Nat),
      (applyPatchesGo ts dry store items u m s).2 =
        (u + items.countP (pUpdated store), m + items.countP (pMissing store),
          s + items.countP (pSkipped store)) := by
  intro items
  induction items with
  | nil => intro store u m s; simp [applyPatchesGo]
  | cons it rest ih =>
    intro store u m s
    by_cases hc : resolveId it = ""
    · simp only [applyPatchesGo]
      simp [ih, List.countP_cons, pUpdated, pMissing, pSkipped, hc,
        hasId_map_patchRow, Prod.ext_iff]
      omega
    · by_cases hh : hasId store (resolveId it) = true
      · by_cases he : (optEmpty it.description && optEmpty it.imageUrl) = true
        · simp only [applyPatchesGo]
          simp [ih, List.countP_cons, pUpdated, pMissing, pSkipped, hc, hh, he,
            hasId_map_patchRow, Prod.ext_iff]
          omega
        · cases dry with
          | true =>
            simp only [applyPatchesGo]
            simp [ih, List.countP_cons, pUpdated, pMissing, pSkipped, hc, hh, he,
              hasId_map_patchRow, Prod.ext_iff]
            omega
          | false =>
            simp only [applyPatchesGo]
            simp [ih, countP_pUpdated_map, countP_pMissing_map, countP_pSkipped_map,
              List.countP_cons, pUpdated, pMissing, pSkipped, hc, hh, he,
              Prod.ext_iff]
            omega
      · simp only [applyPatchesGo]
        simp [ih, List.countP_cons, pUpdated, pMissing, pSkipped, hc, hh,
          hasId_map_patchRow, Prod.ext_iff]
        omega

theorem apply_patches_counts (store : List Row) (items : List PatchItem)
    (ts : Int) (dry : Bool) :
    (apply_patches store items ts dry).2 =
      (items.countP (pUpdated store), items.countP (pMissing store),
        items.countP (pSkipped store)) := by
  unfold apply_patches
  rw [applyPatchesGo_counts]
  simp

theorem counts_partition (store : List Row) (items : List PatchItem) :
    items.countP (pUpdated store) + items.countP (pMissing store) +
      items.countP (pSkipped store) = items.length := by
  induction items with
  | nil => simp
  | cons it rest ih =>
    by_cases hc : resolveId it = "" <;>
      by_cases hh : hasId store (resolveId it) = true <;>
        by_cases he : (optEmpty it.description && optEmpty it.imageUrl) = true <;>
          · simp [List.countP_cons, pUpdated, pMissing, pSkipped, hc, hh, he]
            omega

theorem applyPatchesGo_store_dry (ts : Int) :
    ∀ (items : List PatchItem) (store : List Row) (u m s : Nat),
      (applyPatchesGo ts true store items u m s).1 = store := by
  intro items
  induction items with
  | nil => intro store u m s; rfl
  | cons it rest ih =>
    intro store u m s
    simp only [applyPatchesGo]
    split
    · exact ih _ _ _ _
    split
    · exact ih _ _ _ _
    split
    · exact ih _ _ _ _
    split
    · exact ih _ _ _ _
    · next h => exact absurd trivial h

/-- C6: the patch merge counts partition the batch.  For every store and
batch, `apply_patches` returns exactly the number of entries with a
present identifier and a non-empty provided field as `updated`, the
number with a non-empty identifier absent from the store as
`missingInStore`, and the number with no identifier or with both fields
empty as `skipped`; the three counts sum to the batch length.  In
particular the specification example — a batch of 10 entries against a
7-row store with 3 absent ids, 2 all-empty entries and 5 valid fills —
yields `(updated, missing, skipped) = (5, 3, 2)`. -/
theorem c6_patch_counts :
    (∀ (store : List Row) (items : List PatchItem) (ts : Int) (dry : Bool),
      (apply_patches store items ts dry).2 =
        (items.countP (pUpdated store), items.countP (pMissing store),
          items.countP (pSkipped store)) ∧
      items.countP (pUpdated store) + items.countP (pMissing store) +
        items.countP (pSkipped store) = items.length) ∧
    (apply_patches store7 batch10 100 false).2 = (5, 3, 2) := by
  constructor
  · intro store items ts dry
    exact ⟨apply_patches_counts store items ts dry, counts_partition store items⟩
  · decide

/-- C4 counterexample: with `--bump-user-version` set, a non-dry run of
`safe_patch_prebuilt_db.py` that updated zero entries still advances
`user_version` (here from 7 to 8), contradicting the claim that the
counter is left unchanged when no entry was updated. -/
theorem c4_generation_bump_counterexample :
    safePatchFinalUserVersion false none true 7 0 = 8 ∧
      ¬ safePatchFinalUserVersion false none true 7 0 = 7 := by
  decide

/-- C4 amended: the advance-iff-updated behaviour holds in
`scripts/patch_descriptions.py` (bump by exactly one iff the flag is set
and at least one entry was updated), but `safe_patch_prebuilt_db.py`
advances the counter by one unconditionally in every non-dry run with
the bump flag set and no explicit version, regardless of the update
count; a dry run never changes the counter. -/
theorem c4_generation_bump_amended :
    (∀ (bump : Bool) (updated : Nat) (uv : Int),
      (patchDescFinalUserVersion bump updated uv = uv + 1 ↔
        (bump = true ∧ 0 < updated)) ∧
      (patchDescFinalUserVersion bump updated uv = uv ↔
        ¬ (bump = true ∧ 0 < updated))) ∧
    (∀ (uv : Int) (n : Nat), safePatchFinalUserVersion false none true uv n = uv + 1) ∧
    (∀ (sv : Option Int) (b : Bool) (uv : Int) (n : Nat),
      safePatchFinalUserVersion true sv b uv n = uv) := by
  refine ⟨fun bump updated uv => ?_, fun uv n => rfl, fun sv b uv n => rfl⟩
  unfold patchDescFinalUserVersion
  by_cases h : bump = true ∧ 0 < updated
  · simp [h]
  · simp only [if_neg h]
    constructor
    · constructor
      · intro heq; omega
      · intro hcon; exact absurd hcon h
    · simp [h]

/-- C5 counterexample: a patch entry that resupplies exactly the stored
description is counted as an update and rewrites the row; no stored
content field changes, yet `updatedAt` moves from 5 to the patch
timestamp 6 — contradicting the claim that a no-op write leaves
`updatedAt` unchanged. -/
theorem c5_updatedAt_counterexample :
    ((apply_patches storeNoop itemsNoop 6 false).1.map
        (fun r => (r.symbol, r.name, r.description, r.imageUrl))) =
      (storeNoop.map (fun r => (r.symbol, r.name, r.description, r.imageUrl))) ∧
    ((apply_patches storeNoop itemsNoop 6 false).1.map (fun r => r.updatedAt)) = [6] ∧
    (storeNoop.map (fun r => r.updatedAt)) = [5] := by
  decide

/-- C5 amended: every executed write stamps `updatedAt` with the
operation timestamp unconditionally.  The patch UPDATE sets the matched
row's `updatedAt` to the patch timestamp even when both bind parameters
are NULL (so no content field changes), and an enrich write sets the
matched row's `updatedAt` to the run timestamp; rows not matched by the
write keep their `updatedAt`. -/
theorem c5_updatedAt_amended :
    (∀ (ts : Int) (c : String) (r : Row),
      patchRow ts c none none r =
        if r.cgId = c then { r with updatedAt := ts } else r) ∧
    (∀ (ts : Int) (c : String) (d img : Option String) (r : Row),
      (patchRow ts c d img r).updatedAt = if r.cgId = c then ts else r.updatedAt) ∧
    (∀ (unescape : String → String) (si : Bool) (now : Int) (store : List Row)
        (cid : String) (data : CoinData),
      (enrichStep unescape si now store (cid, some data)).map (fun r => r.updatedAt) =
        store.map (fun r => if r.cgId = cid then now else r.updatedAt)) := by
  refine ⟨fun ts c r => ?_, fun ts c d img r => ?_, fun unescape si now store cid data => ?_⟩
  · unfold patchRow
    split <;> rfl
  · unfold patchRow
    split <;> rfl
  · induction store with
    | nil => rfl
    | cons r rs ih =>
      simp only [enrichStep, List.map_cons] at ih ⊢
      by_cases h : r.cgId = cid <;> simp [h, ih]

/-- C10: a dry patch run is pure.  With `dry_run` set, `apply_patches`
returns the store unchanged while reporting exactly the counts that the
corresponding wet run would report, and the `user_version` epilogue of
`main` never touches the counter in a dry run. -/
theorem c10_dry_run_pure :
    (∀ (store : List Row) (items : List PatchItem) (ts : Int),
      (apply_patches store items ts true).1 = store ∧
      (apply_patches store items ts true).2 = (apply_patches store items ts false).2) ∧
    (∀ (sv : Option Int) (b : Bool) (uv : Int) (n : Nat),
      safePatchFinalUserVersion true sv b uv n = uv) := by
  refine ⟨fun store items ts => ⟨?_, ?_⟩, fun sv b uv n => rfl⟩
  · exact applyPatchesGo_store_dry ts items store 0 0 0
  · rw [apply_patches_counts, apply_patches_counts]

/-- C9: resume completeness.  On a store with unique identifiers (the
primary-key invariant), `list_ids_needing_enrich` without image skipping
returns exactly the identifiers of rows whose description or imageUrl is
NULL or empty: membership is equivalent to the existence of such a row,
and the identifier of a row with both fields non-empty never appears. -/
theorem c9_resume_completeness :
    ∀ (store : List Row), (store.map (fun r => r.cgId)).Nodup →
      (∀ c : String, c ∈ list_ids_needing_enrich false store ↔
        ∃ r, r ∈ store ∧ r.cgId = c ∧
          (optEmpty r.description || optEmpty r.imageUrl) = true) ∧
      (∀ r ∈ store, (optEmpty r.description || optEmpty r.imageUrl) = false →
        ¬ r.cgId ∈ list_ids_needing_enrich false store) := by
  intro store hnd
  have hmem : ∀ c : String, c ∈ list_ids_needing_enrich false store ↔
      ∃ r, r ∈ store ∧ r.cgId = c ∧
        (optEmpty r.description || optEmpty r.imageUrl) = true := by
    intro c
    simp only [list_ids_needing_enrich, if_neg (by simp : ¬ false = true),
      List.mem_map, List.mem_filter]
    constructor
    · rintro ⟨r, ⟨hr, hp⟩, hc⟩
      exact ⟨r, hr, hc, hp⟩
    · rintro ⟨r, hr, hc, hp⟩
      exact ⟨r, ⟨hr, hp⟩, hc⟩
  refine ⟨hmem, fun r hr hfalse hin => ?_⟩
  rcases (hmem r.cgId).mp hin with ⟨s, hs, hcg, hp⟩
  have : s = r := List.inj_on_of_nodup_map hnd hs hr hcg
  rw [this] at hp
  rw [hfalse] at hp
  exact Bool.false_ne_true hp

/-- C9 witness: on the concrete two-row store, the incomplete identifier
is listed and the complete one is not. -/
theorem c9_resume_completeness_witness :
    ("b" ∈ list_ids_needing_enrich false storeResume) ∧
      ¬ "a" ∈ list_ids_needing_enrich false storeResume := by
  have h := c9_resume_completeness storeResume (by decide)
  constructor
  · exact (h.1 "b").mpr ⟨⟨"b", "B", "Beta", none, some "i", 1⟩, by decide, rfl, by decide⟩
  · exact h.2 ⟨"a", "A", "Alpha", some "d", some "i", 1⟩ (by decide) (by decide)

/-- C7: backoff bound and monotonicity.  For either script constant
(60 or 90 seconds), the wait computed on a 429 response with no
Retry-After header after the k-th consecutive failure equals
`min(MAX_BACKOFF_SEC, BASE_BACKOFF_SEC * 2 ** (k-1))` plus the jitter;
with jitter in [0, 0.4) the wait is at most `MAX_BACKOFF_SEC + 0.4`, the
deterministic part is non-decreasing in k, and it equals the cap as soon
as the exponential reaches it. -/
theorem c7_backoff_bound :
    ∀ (maxB : ℚ), (maxB = MAX_BACKOFF_SEC_tokens ∨ maxB = MAX_BACKOFF_SEC_db) →
    ∀ (k : Nat) (jitter : ℚ), 0 ≤ jitter → jitter < 2/5 →
      waitOn429 maxB none k jitter =
        min maxB (BASE_BACKOFF_SEC * 2 ^ (k - 1)) + jitter ∧
      waitOn429 maxB none k jitter ≤ maxB + 2/5 ∧
      (∀ j, j ≤ k → backoffDet maxB j ≤ backoffDet maxB k) ∧
      (maxB ≤ BASE_BACKOFF_SEC * 2 ^ (k - 1) → backoffDet maxB k = maxB) := by
  intro maxB hmax k jitter hj0 hj1
  refine ⟨rfl, ?_, ?_, ?_⟩
  · have hdet : backoffDet maxB k ≤ maxB := min_le_left _ _
    have : waitOn429 maxB none k jitter = backoffDet maxB k + jitter := rfl
    rw [this]
    exact add_le_add hdet (le_of_lt hj1)
  · intro j hjk
    unfold backoffDet
    refine min_le_min le_rfl ?_
    have hpow : (2 : ℚ) ^ (j - 1) ≤ 2 ^ (k - 1) :=
      pow_le_pow_right₀ (by norm_num) (Nat.sub_le_sub_right hjk 1)
    have hbase : (0 : ℚ) ≤ BASE_BACKOFF_SEC := by norm_num [BASE_BACKOFF_SEC]
    exact mul_le_mul_of_nonneg_left hpow hbase
  · intro hcap
    unfold backoffDet
    exact min_eq_left hcap

/-- C7 witness: the tokens-variant cap at attempt 3 with jitter 1/10. -/
theorem c7_backoff_bound_witness :
    waitOn429 MAX_BACKOFF_SEC_tokens none 3 (1/10) ≤ MAX_BACKOFF_SEC_tokens + 2/5 ∧
      backoffDet MAX_BACKOFF_SEC_tokens 2 ≤ backoffDet MAX_BACKOFF_SEC_tokens 3 := by
  have h := c7_backoff_bound MAX_BACKOFF_SEC_tokens (Or.inl rfl) 3 (1/10)
    (by norm_num) (by norm_num)
  exact ⟨h.2.1, h.2.2.1 2 (by norm_num)⟩

theorem requestJsonGo_terminal (outcomes : Nat → HttpOutcome) (a : Nat)
    (ha : ¬ a ≤ MAX_RETRIES) :
    (requestJsonGo outcomes a).2 = a ∧
      ((∀ k, isTransient (outcomes k) = true) →
        isErrorResult (requestJsonGo outcomes a).1 = true) := by
  unfold requestJsonGo
  cases houtcome : outcomes a with
  | netError => simp [ha, isErrorResult]
  | response status body =>
    by_cases hr : isRetryableStatus status = true
    · simp [hr, ha, isErrorResult]
    · by_cases hf : raiseForStatusFails status = true
      · refine ⟨by simp [hr, hf], fun htr => ?_⟩
        have h1 := htr a
        rw [houtcome] at h1
        simp [isTransient] at h1
        exact absurd h1 hr
      · refine ⟨by simp [hr, hf], fun htr => ?_⟩
        have h1 := htr a
        rw [houtcome] at h1
        simp [isTransient] at h1
        exact absurd h1 hr

theorem requestJsonGo_bounded (outcomes : Nat → HttpOutcome) :
    ∀ (n a : Nat), MAX_RETRIES + 1 - a ≤ n → a ≤ MAX_RETRIES + 1 →
      (requestJsonGo outcomes a).2 ≤ MAX_RETRIES + 1 ∧
      ((∀ k, isTransient (outcomes k) = true) →
        isErrorResult (requestJsonGo outcomes a).1 = true) := by
  intro n
  induction n with
  | zero =>
    intro a h0 hle
    have ha : ¬ a ≤ MAX_RETRIES := by omega
    rcases requestJsonGo_terminal outcomes a ha with ⟨h2, herr⟩
    exact ⟨le_of_eq_of_le h2 hle, herr⟩
  | succ n ih =>
    intro a h0 hle
    by_cases ha : a ≤ MAX_RETRIES
    · have hrec := ih (a + 1) (by omega) (by omega)
      unfold requestJsonGo
      cases houtcome : outcomes a with
      | netError => simpa [ha] using hrec
      | response status body =>
        by_cases hr : isRetryableStatus status = true
        · simpa [hr, ha] using hrec
        · by_cases hf : raiseForStatusFails status = true
          · refine ⟨by simp [hr, hf]; omega, fun htr => ?_⟩
            have h1 := htr a
            rw [houtcome] at h1
            simp [isTransient] at h1
            exact absurd h1 hr
          · refine ⟨by simp [hr, hf]; omega, fun htr => ?_⟩
            have h1 := htr a
            rw [houtcome] at h1
            simp [isTransient] at h1
            exact absurd h1 hr
    · rcases requestJsonGo_terminal outcomes a ha with ⟨h2, herr⟩
      exact ⟨le_of_eq_of_le h2 hle, herr⟩

/-- C8: the retry ceiling is terminal.  For every sequence of per-attempt
outcomes, `request_json` exits on an attempt numbered at most
`MAX_RETRIES + 1` (so it performs at most `MAX_RETRIES + 1` attempts), and
when every attempt is a transient failure (429/5xx status, timeout or
connection error) the loop terminates with the underlying HTTP or network
error surfaced to the caller rather than retried further. -/
theorem c8_retry_ceiling :
    ∀ (outcomes : Nat → HttpOutcome),
      (request_json outcomes).2 ≤ MAX_RETRIES + 1 ∧
      ((∀ k, isTransient (outcomes k) = true) →
        isErrorResult (request_json outcomes).1 = true) := by
  intro outcomes
  unfold request_json
  exact requestJsonGo_bounded outcomes (MAX_RETRIES + 1) 1 (by omega) (by omega)

/-- C8 witness: under a constant stream of 429 responses the loop stops
within the ceiling and surfaces an error. -/
theorem c8_retry_ceiling_witness :
    (request_json (fun _ => HttpOutcome.response 429 "x")).2 ≤ MAX_RETRIES + 1 ∧
      isErrorResult (request_json (fun _ => HttpOutcome.response 429 "x")).1 = true := by
  have h := c8_retry_ceiling (fun _ => HttpOutcome.response 429 "x")
  exact ⟨h.1, h.2 (fun k => by decide)⟩

theorem emptyToNone_of_optEmpty (o : Option String) (h : optEmpty o = true) :
    emptyToNone o = none := by
  cases o with
  | none => rfl
  | some s =>
    simp [optEmpty] at h
    simp [emptyToNone, h]

theorem itemStep_cgId (ts : Int) (ids : List String) (r : Row) (it : PatchItem) :
    (itemStep ts ids r it).cgId = r.cgId := by
  simp only [itemStep]
  split
  · rfl
  split
  · rfl
  split
  · rfl
  · exact patchRow_cgId _ _ _ _ _

theorem itemsFun_cgId (ts : Int) (ids : List String) :
    ∀ (items : List PatchItem) (r : Row), (itemsFun ts ids items r).cgId = r.cgId := by
  intro items
  induction items with
  | nil => intro r; rfl
  | cons it rest ih =>
    intro r
    simp only [itemsFun, List.foldl_cons] at ih ⊢
    rw [ih, itemStep_cgId]

theorem hasId_eq_ids_any (store : List Row) (c : String) :
    (store.map (fun r => r.cgId)).any (fun x => x = c) = hasId store c := by
  induction store with
  | nil => rfl
  | cons r rs ih =>
    simp only [hasId, List.map_cons, List.any_cons] at ih ⊢
    rw [ih]

theorem ids_map_patchRow (store : List Row) (ts : Int) (c : String)
    (d img : Option String) :
    (store.map (patchRow ts c d img)).map (fun r => r.cgId) =
      store.map (fun r => r.cgId) := by
  simp [List.map_map, Function.comp_def, patchRow_cgId]

theorem map_eq_map_of_eq {A B : Type} (f g : A → B) (h : ∀ a, f a = g a)
    (l : List A) : l.map f = l.map g := by
  rw [funext h]

theorem applyPatchesGo_store_wet (ts : Int) :
    ∀ (items : List PatchItem) (store : List Row) (u m s : Nat),
      (applyPatchesGo ts false store items u m s).1 =
        store.map (itemsFun ts (store.map (fun r => r.cgId)) items) := by
  intro items
  induction items with
  | nil =>
    intro store u m s
    have hid : store.map (itemsFun ts (store.map (fun r => r.cgId)) []) =
        store.map (fun r => r) :=
      map_eq_map_of_eq _ _ (fun r => rfl) store
    simp [applyPatchesGo, hid]
  | cons it rest ih =>
    intro store u m s
    by_cases hc : resolveId it = ""
    · have hbranch : applyPatchesGo ts false store (it :: rest) u m s =
          applyPatchesGo ts false store rest u m (s + 1) := by
        simp only [applyPatchesGo]
        simp [hc]
      rw [hbranch, ih]
      apply map_eq_map_of_eq
      intro r
      simp only [itemsFun, List.foldl_cons]
      rw [show itemStep ts (store.map (fun x => x.cgId)) r it = r from by
        simp [itemStep, hc]]
    · by_cases hh : hasId store (resolveId it) = true
      · by_cases he : (optEmpty it.description && optEmpty it.imageUrl) = true
        · have hbranch : applyPatchesGo ts false store (it :: rest) u m s =
              applyPatchesGo ts false store rest u m (s + 1) := by
            simp only [applyPatchesGo]
            simp [hc, hh, he]
          rw [hbranch, ih]
          apply map_eq_map_of_eq
          intro r
          simp only [itemsFun, List.foldl_cons]
          rw [show itemStep ts (store.map (fun x => x.cgId)) r it = r from by
            simp [itemStep, hc, hasId_eq_ids_any, hh, he]]
        · have hbranch : applyPatchesGo ts false store (it :: rest) u m s =
              applyPatchesGo ts false
                (store.map (patchRow ts (resolveId it) (emptyToNone it.description)
                  (emptyToNone it.imageUrl))) rest (u + 1) m s := by
            simp only [applyPatchesGo]
            simp [hc, hh, he]
          rw [hbranch, ih, ids_map_patchRow, List.map_map]
          apply map_eq_map_of_eq
          intro r
          simp only [itemsFun, List.foldl_cons, Function.comp_def]
          rw [show itemStep ts (store.map (fun x => x.cgId)) r it =
              patchRow ts (resolveId it) (emptyToNone it.description)
                (emptyToNone it.imageUrl) r from by
            simp [itemStep, hc, hasId_eq_ids_any, hh, he]]
      · have hh2 : hasId store (resolveId it) = false := by
          simpa using hh
        have hbranch : applyPatchesGo ts false store (it :: rest) u m s =
            applyPatchesGo ts false store rest u (m + 1) s := by
          simp only [applyPatchesGo]
          simp [hc, hh2]
        rw [hbranch, ih]
        apply map_eq_map_of_eq
        intro r
        simp only [itemsFun, List.foldl_cons]
        rw [show itemStep ts (store.map (fun x => x.cgId)) r it = r from by
          simp [itemStep, hc, hasId_eq_ids_any, hh2]]

theorem itemsFun_desc_preserved (ts : Int) (ids : List String) :
    ∀ (items : List PatchItem) (r : Row),
      (∀ it ∈ items, resolveId it = r.cgId → optEmpty it.description = true) →
      (itemsFun ts ids items r).description = r.description := by
  intro items
  induction items with
  | nil => intro r _; rfl
  | cons it rest ih =>
    intro r h
    have hdesc : (itemStep ts ids r it).description = r.description := by
      simp only [itemStep]
      split
      · rfl
      split
      · rfl
      split
      · rfl
      · unfold patchRow
        by_cases hcg : r.cgId = resolveId it
        · rw [if_pos hcg]
          rw [emptyToNone_of_optEmpty it.description (h it (by simp) hcg.symm)]
        · rw [if_neg hcg]
    have hrest : ∀ it2 ∈ rest, resolveId it2 = (itemStep ts ids r it).cgId →
        optEmpty it2.description = true := by
      intro it2 h2 hres
      rw [itemStep_cgId] at hres
      exact h it2 (by simp [h2]) hres
    simp only [itemsFun, List.foldl_cons] at ih ⊢
    rw [ih (itemStep ts ids r it) hrest, hdesc]

theorem forall₂_map_self {A B : Type} (p : A → B → Prop) (f : A → B) :
    ∀ (l : List A), (∀ a ∈ l, p a (f a)) → List.Forall₂ p l (l.map f) := by
  intro l
  induction l with
  | nil => intro _; exact List.Forall₂.nil
  | cons a l ih =>
    intro h
    exact List.Forall₂.cons (h a (by simp)) (ih (fun b hb => h b (by simp [hb])))

/-- C1 counterexample: the record `rowKeep` has a non-empty description
and an empty imageUrl, so the enrich pass selects it; the upstream detail
carries an image but no description, and the fill-only enrich claim fails:
`enrich_details` clears the existing description to NULL. -/
theorem c1_fill_only_counterexample :
    rowKeep.description = some "An existing description." ∧
    rowKeep.cgId ∈ list_ids_needing_enrich false [rowKeep] ∧
    (enrich_details (fun s => s) false 10 [rowKeep] [fetchNoDesc]).map
        (fun r => r.description) = [none] := by
  decide

/-- C1 amended: fill-only preservation holds only field-wise against the
write payload, not against stored content.  A patch pass preserves a
record's description exactly when no entry for its identifier supplies a
non-empty description (the COALESCE keeps the stored value only for NULL
bind parameters; a supplied non-empty description overwrites a non-empty
stored one).  An enrich pass overwrites the description of every
successfully fetched identifier with the newly computed value
unconditionally — clearing it when the upstream supplies none — and
leaves rows with other identifiers untouched. -/
theorem c1_fill_only_amended :
    (∀ (ts : Int) (store : List Row) (items : List PatchItem),
      List.Forall₂ (fun r rNew => rNew.cgId = r.cgId ∧
        ((∀ it ∈ items, resolveId it = r.cgId → optEmpty it.description = true) →
          rNew.description = r.description))
        store ((apply_patches store items ts false).1)) ∧
    (∀ (unescape : String → String) (si : Bool) (now : Int) (store : List Row)
        (cid : String) (data : CoinData),
      List.Forall₂ (fun r rNew => rNew.cgId = r.cgId ∧
        (r.cgId = cid → rNew.description = computedDesc unescape data) ∧
        (¬ r.cgId = cid → rNew = r))
        store (enrichStep unescape si now store (cid, some data))) := by
  constructor
  · intro ts store items
    unfold apply_patches
    rw [applyPatchesGo_store_wet]
    apply forall₂_map_self
    intro r _
    exact ⟨itemsFun_cgId ts _ items r,
      fun hyp => itemsFun_desc_preserved ts _ items r hyp⟩
  · intro unescape si now store cid data
    simp only [enrichStep]
    apply forall₂_map_self
    intro r _
    by_cases h : r.cgId = cid <;> simp [h]

/-- C1 witness: instantiating the amended theorem on a one-row store and
a patch entry that supplies only an image, the existing description is
preserved while the image is filled. -/
theorem c1_fill_only_witness :
    List.Forall₂ (fun r rNew => rNew.cgId = r.cgId ∧
        ((∀ it ∈ itemsFill, resolveId it = r.cgId → optEmpty it.description = true) →
          rNew.description = r.description))
      storeFill ((apply_patches storeFill itemsFill 9 false).1) ∧
    ((apply_patches storeFill itemsFill 9 false).1).map (fun r => r.description) =
      [some "keep"] ∧
    ((apply_patches storeFill itemsFill 9 false).1).map (fun r => r.imageUrl) =
      [some "https://i"] := by
  refine ⟨c1_fill_only_amended.1 9 storeFill itemsFill, by decide, by decide⟩

theorem foldl_insertOrReplace_append :
    ∀ (l acc : List RawRow), ((acc ++ l).map (fun r => r.cgId)).Nodup →
      l.foldl insertOrReplace acc = acc ++ l := by
  intro l
  induction l with
  | nil => intro acc _; simp
  | cons r l ih =>
    intro acc hnd
    have hkeys : ¬ (acc.any (fun x => x.cgId = r.cgId)) = true := by
      intro hany
      rw [List.any_eq_true] at hany
      rcases hany with ⟨x, hx, hxr⟩
      rw [List.map_append] at hnd
      rcases List.nodup_append.mp hnd with ⟨_, _, hdisj⟩
      have hxmem : x.cgId ∈ acc.map (fun r => r.cgId) := List.mem_map_of_mem _ hx
      have hrmem : x.cgId ∈ (r :: l).map (fun r => r.cgId) := by
        simp at hxr
        simp [hxr]
      exact hdisj hxmem hrmem
    have hins : insertOrReplace acc r = acc ++ [r] := by
      simp only [insertOrReplace]
      rw [if_neg (by simpa using hkeys)]
    rw [List.foldl_cons, hins]
    have happ : (acc ++ [r]) ++ l = acc ++ (r :: l) := by simp
    rw [ih (acc ++ [r]) (by rw [happ]; exact hnd), happ]

theorem rebuild_rows_eq (db : DbFile)
    (hnd : (db.rows.map (fun r => r.cgId.getD "")).Nodup) :
    (rebuild_tokens_table_room_schema db).rows = db.rows.map rebuildRow := by
  unfold rebuild_tokens_table_room_schema
  have hkeys : ((db.rows.map rebuildRow).map (fun r => r.cgId)) =
      (db.rows.map (fun r => r.cgId.getD "")).map some := by
    simp [List.map_map, Function.comp_def, rebuildRow]
  have hnd2 : ((([] : List RawRow) ++ db.rows.map rebuildRow).map
      (fun r => r.cgId)).Nodup := by
    rw [List.nil_append, hkeys]
    exact hnd.map (Option.some_injective String)
  simpa using foldl_insertOrReplace_append (db.rows.map rebuildRow) [] hnd2

/-- C2 counterexample: on a loose-schema store whose second row has a
NULL description, `ensure_schema` rebuilds the table but the rebuild
copies `description` verbatim (only cgId/symbol/name/updatedAt are
COALESCEd), so the previously-NULL description is still NULL afterwards —
not the empty string the claim requires. -/
theorem c2_schema_rebuild_counterexample :
    schema_is_room_compatible dbLoose = false ∧
    dbLoose.rows.map (fun r => r.description) = [some "d1", none] ∧
    (ensure_schema dbLoose).rows.map (fun r => r.description) = [some "d1", none] := by
  decide

/-- C2 amended: on a store with an existing `tokens` table whose layout is
not Room-compatible and whose coalesced identifiers are pairwise distinct,
`ensure_schema` rebuilds to the strict layout (the check passes
afterwards), preserves the row count and per-row content with NULLs in
required columns replaced by defaults (empty string, 0), leaves each
description exactly as it was — a NULL description stays NULL — and every
required column of every resulting row is non-NULL. -/
theorem c2_schema_rebuild_amended :
    ∀ (db : DbFile), db.hasTokens = true → schema_is_room_compatible db = false →
      (db.rows.map (fun r => r.cgId.getD "")).Nodup →
      schema_is_room_compatible (ensure_schema db) = true ∧
      (ensure_schema db).rows.length = db.rows.length ∧
      (ensure_schema db).rows = db.rows.map rebuildRow ∧
      (ensure_schema db).rows.map (fun r => r.description) =
        db.rows.map (fun r => r.description) ∧
      (∀ r ∈ (ensure_schema db).rows,
        r.cgId.isSome ∧ r.symbol.isSome ∧ r.name.isSome ∧ r.updatedAt.isSome) := by
  intro db htok hincomp hnd
  obtain ⟨ht, cols, rows⟩ := db
  simp only at htok hincomp hnd
  subst htok
  have hens : ensure_schema ⟨true, cols, rows⟩ =
      rebuild_tokens_table_room_schema ⟨true, cols, rows⟩ := by
    unfold ensure_schema
    simp [hincomp]
  have hrows : (ensure_schema ⟨true, cols, rows⟩).rows = rows.map rebuildRow := by
    rw [hens]
    exact rebuild_rows_eq ⟨true, cols, rows⟩ hnd
  refine ⟨?_, ?_, hrows, ?_, ?_⟩
  · rw [hens]
    simp [rebuild_tokens_table_room_schema, schema_is_room_compatible, findCol,
      roomCols, ALL_COLUMNS, REQUIRED_NOT_NULL]
  · rw [hrows, List.length_map]
  · rw [hrows]
    simp [List.map_map, Function.comp_def, rebuildRow]
  · rw [hrows]
    intro r hr
    rcases List.mem_map.mp hr with ⟨r0, _, hr0⟩
    rw [← hr0]
    exact ⟨rfl, rfl, rfl, rfl⟩

/-- C2 witness: on the concrete loose store, the rebuild yields a
Room-compatible layout with both rows preserved. -/
theorem c2_schema_rebuild_witness :
    schema_is_room_compatible (ensure_schema dbLoose) = true ∧
      (ensure_schema dbLoose).rows.length = dbLoose.rows.length := by
  have h := c2_schema_rebuild_amended dbLoose rfl (by decide) (by decide)
  exact ⟨h.1, h.2.1⟩

theorem updSeed_cgId (t : String × String × String) (r : Row) :
    (updSeed t r).cgId = r.cgId := by
  unfold updSeed
  split <;> rfl

theorem updOnly_preserves (rows : List (String × String × String)) :
    ∀ r : Row, (updOnly rows r).cgId = r.cgId ∧
      (updOnly rows r).description = r.description ∧
      (updOnly rows r).imageUrl = r.imageUrl ∧
      (updOnly rows r).updatedAt = r.updatedAt := by
  induction rows with
  | nil => intro r; exact ⟨rfl, rfl, rfl, rfl⟩
  | cons t rest ih =>
    intro r
    simp only [updOnly, List.foldl_cons] at ih ⊢
    rcases ih (updSeed t r) with ⟨h1, h2, h3, h4⟩
    have e1 : (updSeed t r).cgId = r.cgId := updSeed_cgId t r
    have e2 : (updSeed t r).description = r.description := by
      unfold updSeed; split <;> rfl
    have e3 : (updSeed t r).imageUrl = r.imageUrl := by
      unfold updSeed; split <;> rfl
    have e4 : (updSeed t r).updatedAt = r.updatedAt := by
      unfold updSeed; split <;> rfl
    exact ⟨by rw [h1, e1], by rw [h2, e2], by rw [h3, e3], by rw [h4, e4]⟩

theorem hasId_map_updSeed (store : List Row) (t : String × String × String)
    (c : String) : hasId (store.map (updSeed t)) c = hasId store c := by
  simp [hasId, List.any_map, Function.comp_def, updSeed_cgId]

theorem hasId_seedUpsert (store : List Row) (t : String × String × String)
    (c : String) :
    hasId (seedUpsert store t) c = (hasId store c || (t.1 = c)) := by
  unfold seedUpsert
  by_cases h : hasId store t.1 = true
  · rw [if_pos h, hasId_map_updSeed]
    by_cases hc : t.1 = c
    · rw [← hc]
      simp [h]
    · simp [hc]
  · rw [if_neg h]
    simp [hasId, List.any_append, newSeedRow]

theorem hasId_seedRows :
    ∀ (rows : List (String × String × String)) (store : List Row) (c : String),
      hasId (seed_rows_from_crypto_com store rows) c =
        (hasId store c || rows.any (fun t => t.1 = c)) := by
  intro rows
  induction rows with
  | nil => intro store c; simp [seed_rows_from_crypto_com]
  | cons t rest ih =>
    intro store c
    simp only [seed_rows_from_crypto_com, List.foldl_cons] at ih ⊢
    rw [ih, hasId_seedUpsert]
    simp [List.any_cons, Bool.or_assoc]

theorem map_eq_self_of_fixpoint {A : Type} (f : A → A) :
    ∀ (l : List A), (∀ a ∈ l, f a = a) → l.map f = l := by
  intro l
  induction l with
  | nil => intro _; rfl
  | cons a l ih =>
    intro h
    simp only [List.map_cons]
    rw [h a (by simp), ih (fun b hb => h b (by simp [hb]))]

theorem seedRows_all_present :
    ∀ (rows : List (String × String × String)) (store : List Row),
      (∀ t ∈ rows, hasId store t.1 = true) →
      seed_rows_from_crypto_com store rows = store.map (updOnly rows) := by
  intro rows
  induction rows with
  | nil =>
    intro store _
    have hid : store.map (updOnly []) = store.map (fun r => r) :=
      map_eq_map_of_eq _ _ (fun r => rfl) store
    simp [seed_rows_from_crypto_com, hid]
  | cons t rest ih =>
    intro store h
    simp only [seed_rows_from_crypto_com, List.foldl_cons] at ih ⊢
    have ht : hasId store t.1 = true := h t (by simp)
    rw [show seedUpsert store t = store.map (updSeed t) from by
      unfold seedUpsert; rw [if_pos ht]]
    rw [ih (store.map (updSeed t)) (fun t2 h2 => by
      rw [hasId_map_updSeed]; exact h t2 (by simp [h2]))]
    rw [List.map_map]
    apply map_eq_map_of_eq
    intro r
    simp only [Function.comp_def, updOnly, List.foldl_cons]

theorem lastMatch_concat (rows : List (String × String × String))
    (t : String × String × String) (c : String) :
    lastMatch (rows ++ [t]) c = if t.1 = c then some t else lastMatch rows c := by
  unfold lastMatch
  rw [List.reverse_append]
  simp only [List.reverse_singleton, List.singleton_append]
  by_cases h : t.1 = c
  · rw [if_pos h]
    exact List.find?_cons_of_pos _ (by simp [h])
  · rw [if_neg h]
    exact List.find?_cons_of_neg _ (by simp [h])

theorem updOnly_eq_lastMatch (r : Row) :
    ∀ (rows : List (String × String × String)),
      updOnly rows r =
        match lastMatch rows r.cgId with
        | some t => { r with symbol := t.2.1, name := t.2.2 }
        | none => r := by
  intro rows
  induction rows using List.reverseRecOn with
  | nil => rfl
  | append_singleton rs t ih =>
    rw [show updOnly (rs ++ [t]) r = updSeed t (updOnly rs r) from by
      unfold updOnly; rw [List.foldl_append]; rfl]
    rw [lastMatch_concat]
    rcases updOnly_preserves rs r with ⟨h1, h2, h3, h4⟩
    by_cases h : t.1 = r.cgId
    · rw [if_pos h]
      unfold updSeed
      rw [if_pos (by rw [h1]; exact h.symm)]
      ext <;> simp [h1, h2, h3, h4]
    · rw [if_neg h]
      unfold updSeed
      rw [if_neg (by rw [h1]; exact fun hh => h hh.symm)]
      exact ih

theorem seedRows_lastMatch (store : List Row) :
    ∀ (rows : List (String × String × String)) (r : Row),
      r ∈ seed_rows_from_crypto_com store rows →
      (match lastMatch rows r.cgId with
       | some t => r.symbol = t.2.1 ∧ r.name = t.2.2
       | none => True) := by
  intro rows
  induction rows using List.reverseRecOn with
  | nil => intro r _; exact True.intro
  | append_singleton rs t ih =>
    intro r hr
    rw [show seed_rows_from_crypto_com store (rs ++ [t]) =
        seedUpsert (seed_rows_from_crypto_com store rs) t from by
      unfold seed_rows_from_crypto_com; rw [List.foldl_append]; rfl] at hr
    rw [lastMatch_concat]
    unfold seedUpsert at hr
    by_cases hhas : hasId (seed_rows_from_crypto_com store rs) t.1 = true
    · rw [if_pos hhas] at hr
      rcases List.mem_map.mp hr with ⟨r0, hr0, hru⟩
      by_cases hcg : r0.cgId = t.1
      · have hr_eq : r = { r0 with symbol := t.2.1, name := t.2.2 } := by
          rw [← hru]
          unfold updSeed
          rw [if_pos hcg]
        have hrc : r.cgId = t.1 := by rw [hr_eq]; exact hcg
        rw [if_pos hrc.symm, hr_eq]
        exact ⟨rfl, rfl⟩
      · have hr_eq : r = r0 := by
          rw [← hru]
          unfold updSeed
          rw [if_neg hcg]
        rw [if_neg (fun hh => hcg (by rw [← hr_eq]; exact hh.symm))]
        rw [hr_eq]
        exact ih r0 hr0
    · rw [if_neg hhas] at hr
      rcases List.mem_append.mp hr with hmem | hmem
      · have hne : ¬ t.1 = r.cgId := by
          intro hh
          apply hhas
          rw [hh]
          exact List.any_eq_true.mpr ⟨r, hmem, by simp⟩
        rw [if_neg hne]
        exact ih r hmem
      · have hr_eq : r = newSeedRow t := by simpa using hmem
        have hrc : t.1 = r.cgId := by rw [hr_eq]; rfl
        rw [if_pos hrc, hr_eq]
        exact ⟨rfl, rfl⟩

theorem updOnly_fixpoint (store : List Row)
    (rows : List (String × String × String)) :
    ∀ r ∈ seed_rows_from_crypto_com store rows, updOnly rows r = r := by
  intro r hr
  have hD := seedRows_lastMatch store rows r hr
  rw [updOnly_eq_lastMatch]
  cases hlm : lastMatch rows r.cgId with
  | none => rfl
  | some t =>
    rw [hlm] at hD
    rcases hD with ⟨hsym, hname⟩
    ext <;> simp [hsym, hname]

/-- C3: seed-phase idempotence.  Replaying the seed phase with the same
mapped `(cgId, symbol, name)` rows returns the store unchanged: the
second pass only re-runs conflict updates that rewrite symbol and name to
the values the first pass already left in place, so the row count and
every field — description, imageUrl and updatedAt in particular — are
identical to a single run. -/
theorem c3_seed_idempotent :
    ∀ (store : List Row) (rows : List (String × String × String)),
      seed_rows_from_crypto_com (seed_rows_from_crypto_com store rows) rows =
        seed_rows_from_crypto_com store rows := by
  intro store rows
  have hall : ∀ t ∈ rows, hasId (seed_rows_from_crypto_com store rows) t.1 = true := by
    intro t ht
    rw [hasId_seedRows]
    have hany : rows.any (fun x => x.1 = t.1) = true :=
      List.any_eq_true.mpr ⟨t, ht, by simp⟩
    simp [hany]
  rw [seedRows_all_present rows (seed_rows_from_crypto_com store rows) hall]
  exact map_eq_self_of_fixpoint _ _ (updOnly_fixpoint store rows)

end TokenDb
